import Mathlib

/-!
StockMarketReturnCalculator: a shallow embedding of `main.go`, with the price
fetcher `getStockPrice`, the fan-out loop and the report of `printTotalReturn`.

Conventions of the embedding:

* A Go `float32` is an IEEE 754 binary32 value (`float32` below): a finite
  number `± m * 2^e`, an infinity or a NaN. Conversion from `int`, `+`, `-` and
  `*` round to the nearest value, ties to even, each operation on its own (no
  fused multiply-add), as the gc compiler does on amd64.
* Go's `int` is the 64-bit signed integer of the usual targets; `+=` on it
  wraps (`wrapInt`).
* A `map[string]float32` is a function `String → Option float32`; indexing a
  missing key yields the zero value, as in Go.
* Standard output is the list of `fmt.Printf` calls, each kept as its format
  string and its argument list; the text `%.2f` makes of a `float32` is not
  modelled.
* The outside world (the key file, the HTTP endpoint, the JSON decoder's
  verdict) enters as parameters, and so do the choices of the Go scheduler
  (`Schedule`): the order in which the goroutines finish, whether the run-time
  system catches two of their map writes overlapping, and how far the main
  goroutine gets when a panic releases the barrier.
-/

namespace StockMarketReturnCalculator

/-! ## float32 -/

/-- The Go type `float32`: IEEE 754 binary32. `finite neg m e` is the number
`(-1)^neg * m * 2^e`; the values the hardware produces have `m < 2^24`,
`-149 ≤ e ≤ 104`, and `2^23 ≤ m` unless `e = -149`. -/
inductive float32 where
  | finite (neg : Bool) (m : Nat) (e : Int)
  | inf (neg : Bool)
  | nan
deriving DecidableEq

namespace float32

/-- The number of binary digits of `n`, computed with `fuel` halvings at
most. -/
def bitLengthAux : Nat → Nat → Nat
  | 0, _ => 0
  | fuel + 1, n => if n = 0 then 0 else bitLengthAux fuel (n / 2) + 1

/-- The number of binary digits of `n`: `2^(bitLength n - 1) ≤ n < 2^(bitLength n)`
for `n ≠ 0`. -/
def bitLength (n : Nat) : Nat := bitLengthAux n n

/-- The `float32` nearest to `(-1)^neg * m * 2^e`, ties to even; an infinity
when the rounded magnitude reaches `2^128`. -/
def round (neg : Bool) (m : Nat) (e : Int) : float32 :=
  if m = 0 then .finite neg 0 (-149)
  else
    let ulp : Int := max (e + (bitLength m : Int) - 24) (-149)
    if ulp ≤ e then
      if 104 < ulp then .inf neg else .finite neg (m * 2 ^ (e - ulp).toNat) ulp
    else
      let k := (ulp - e).toNat
      let q := m / 2 ^ k
      let r := m % 2 ^ k
      let half := 2 ^ (k - 1)
      let q1 := if half < r ∨ (r = half ∧ q % 2 = 1) then q + 1 else q
      if q1 = 16777216 then
        (if 104 < ulp + 1 then .inf neg else .finite neg 8388608 (ulp + 1))
      else
        (if 104 < ulp then .inf neg else .finite neg q1 ulp)

/-- The zero value of `float32`, `+0`. -/
def zero : float32 := .finite false 0 (-149)

/-- The Go conversion `float32(z)` of an `int`. -/
def ofInt (z : Int) : float32 := round (decide (z < 0)) z.natAbs 0

/-- Unary minus. -/
def neg : float32 → float32
  | .finite s m e => .finite (!s) m e
  | .inf s => .inf (!s)
  | .nan => .nan

/-- The integer `(-1)^s * m`. -/
def signed (s : Bool) (m : Nat) : Int := if s then -(m : Int) else (m : Int)

/-- The Go operation `x + y` on `float32`. -/
def add : float32 → float32 → float32
  | .nan, _ => .nan
  | _, .nan => .nan
  | .inf s, .inf t => if s = t then .inf s else .nan
  | .inf s, .finite _ _ _ => .inf s
  | .finite _ _ _, .inf t => .inf t
  | .finite s m e, .finite t n f =>
    let g := min e f
    let c := signed s (m * 2 ^ (e - g).toNat) + signed t (n * 2 ^ (f - g).toNat)
    if c = 0 then .finite (s && t) 0 (-149)
    else round (decide (c < 0)) c.natAbs g

/-- The Go operation `x - y` on `float32`. -/
def sub (x y : float32) : float32 := add x (neg y)

/-- The Go operation `x * y` on `float32`. -/
def mul : float32 → float32 → float32
  | .nan, _ => .nan
  | _, .nan => .nan
  | .inf s, .inf t => .inf (xor s t)
  | .inf s, .finite t n _ => if n = 0 then .nan else .inf (xor s t)
  | .finite s m _, .inf t => if m = 0 then .nan else .inf (xor s t)
  | .finite s m e, .finite t n f => round (xor s t) (m * n) (e + f)

/-- Whether the value is a number (neither an infinity nor a NaN). -/
def isFinite : float32 → Bool
  | .finite _ _ _ => true
  | _ => false

/-- The exact number a finite `float32` stands for. -/
def toRat : float32 → Option ℚ
  | .finite s m e => some ((if s then -1 else 1) * (m : ℚ) * (2 : ℚ) ^ e)
  | _ => none

/-- The exact number of a finite `float32`, and `0` for the others. -/
def val (x : float32) : ℚ := (x.toRat).getD 0

end float32

/-- The numbers a finite `float32` can hold exactly: `± M * 2^E` with
`M < 2^24` and `-149 ≤ E ≤ 104`. -/
def Representable (q : ℚ) : Prop :=
  ∃ (M : Nat) (E : Int), M < 16777216 ∧ -149 ≤ E ∧ E ≤ 104 ∧ |q| = (M : ℚ) * (2 : ℚ) ^ E

/-! ## Data model -/

/-- Structure to hold daily stock info from a daily Tiingo API call
(`dailyInfo`, main.go 38-52). `Date` is kept as its text. -/
structure dailyInfo where
  AdjClose : float32
  AdjHigh : float32
  AdjLow : float32
  AdjOpen : float32
  AdjVolume : float32
  Close : float32
  Date : String
  DivCash : float32
  High : float32
  Low : float32
  Open : float32
  SplitFactor : float32
  Volume : float32
deriving DecidableEq

/-- Structure to hold a user's holding info about a stock
(`holdingInfo`, main.go 55-59). `NumShares` is a Go `int`: the JSON decoder
only stores values of `[−2^63, 2^63)` in it. -/
structure holdingInfo where
  Ticker : String
  NumShares : Int
  AvgPricePerShare : float32
deriving DecidableEq

/-- Two's-complement wrap-around of a Go `int` (64 bits): the value an
arithmetic result takes when stored back into an `int`. -/
def wrapInt (z : Int) : Int :=
  (z + 9223372036854775808) % 18446744073709551616 - 9223372036854775808

/-- The Go type `map[string]float32`. -/
abbrev PriceMap := String → Option float32

/-- The result of `make(map[string]float32)`: no key is present. -/
def PriceMap.make : PriceMap := fun _ => none

/-- The Go expression `m[key]`: the stored value, or the zero value `+0` when
the key is absent. -/
def PriceMap.index (m : PriceMap) (key : String) : float32 :=
  (m key).getD float32.zero

/-- The Go statement `m[key] = v`. -/
def PriceMap.assign (m : PriceMap) (key : String) (v : float32) : PriceMap :=
  fun k => if k = key then some v else m k

/-- How the process ends abnormally: `log.Fatalf` (the message is logged and
the process exits with status 1), a run-time panic on an index out of range,
or the run-time system's `fatal error: concurrent map writes`. The
`log.Fatalf` call is kept as its format string. -/
inductive Exit where
  | fatal (format : String)
  | indexOutOfRange
  | concurrentMapWrites
deriving DecidableEq

/-- One argument of a `fmt.Printf` call. -/
inductive Arg where
  | str (s : String)
  | int (n : Int)
  | float (x : float32)
deriving DecidableEq

/-- One `fmt.Printf` call: the format string and the arguments. -/
structure Printf where
  format : String
  args : List Arg
deriving DecidableEq

/-! ## getAPIKey (main.go 62-72) -/

/-- Go's `unicode.IsSpace`, on the code point of the character. -/
def isSpace (c : Char) : Bool :=
  let n := c.toNat
  (9 ≤ n && n ≤ 13) || n = 32 || n = 133 || n = 160 || n = 5760 ||
  (8192 ≤ n && n ≤ 8202) || n = 8232 || n = 8233 || n = 8239 || n = 8287 || n = 12288

/-- Go's `strings.TrimSpace`: leading and trailing white space removed. -/
def TrimSpace (s : String) : String :=
  String.mk ((s.data.dropWhile isSpace).reverse.dropWhile isSpace).reverse

/-- Reads and returns the first line of the key file. `file` is `none` when
`os.Open` fails, and otherwise `some line` with `line` the text that
`scanner.Text()` holds after the first `scanner.Scan()`. -/
def getAPIKey (file : Option String) : Except Exit String :=
  match file with
  | none => .error (.fatal "There was an error opening '%s': %s")
  | some line => .ok (TrimSpace line)

/-! ## getStockPrice (main.go 92-113) -/

/-- What `http.Get(url)` followed by `json.Unmarshal(data, &dataJSON)` comes
to: `http.Get` returns an error, `json.Unmarshal` returns an error, or
`dataJSON` is filled with the decoded array. -/
inductive ApiOutcome where
  | networkError
  | unmarshalError
  | parsed (dataJSON : List dailyInfo)
deriving DecidableEq

/-- The API url crafted at line 96. -/
def apiURL (ticker key : String) : String :=
  "https://api.tiingo.com/tiingo/daily/" ++ ticker ++ "/prices?token=" ++ key

/-- One call of `getStockPrice(ticker, prices, wg)`. Returns the price map as
the call leaves it, and how the call ended: `none` when it returns normally,
`some e` when it ends the process. -/
def getStockPrice (ticker : String) (prices : PriceMap) (keyFile : Option String)
    (httpGet : String → ApiOutcome) : PriceMap × Option Exit :=
  match getAPIKey keyFile with
  | .error e => (prices, some e)
  | .ok key =>
    match httpGet (apiURL ticker key) with
    | .networkError => (prices, some (.fatal "There was an error contacting the API: %s"))
    | .unmarshalError =>
      (prices, some (.fatal "There was an error parsing the API response to a 'dailyInfo' type"))
    | .parsed dataJSON =>
      match dataJSON[0]? with
      | none => (prices, some .indexOutOfRange)
      | some d => (prices.assign ticker d.Close, none)

/-! ## printTotalReturn (main.go 115-149) -/

/-- The separator line. -/
def separator : Printf :=
  ⟨"-----------------------------------------------------------\n", []⟩

/-- The header row. -/
def headerRow : Printf :=
  ⟨"| Ticker | Shares | Avg Cost | Current Value |   Return   |\n", []⟩

/-- The format string of the per-holding row (line 130). -/
def rowFormat : String := "|  %-6s|  %-6d| %-9.2f|    %-11.2f|  %-10.2f|\n"

/-- The format string of the TOTALS row (line 147). -/
def totalsFormat : String := "| TOTALS |  %-6d| %-9.2f|    %-11.2f|  %-10.2f|\n"

/-- The `fmt.Printf` call of line 130, for the holding `h`. -/
def holdingRow (h : holdingInfo) (currentValues : PriceMap) : Printf :=
  ⟨rowFormat,
    [.str h.Ticker, .int h.NumShares, .float h.AvgPricePerShare,
     .float (currentValues.index h.Ticker),
     .float (float32.mul (float32.ofInt h.NumShares)
       (float32.sub (currentValues.index h.Ticker) h.AvgPricePerShare))]⟩

/-- The running totals of the loop of lines 139-143. -/
structure Totals where
  totalShares : Int
  totalCost : float32
  totalValue : float32
deriving DecidableEq

/-- One iteration of the loop of lines 139-143. -/
def addHolding (currentValues : PriceMap) (t : Totals) (h : holdingInfo) : Totals :=
  { totalShares := wrapInt (t.totalShares + h.NumShares)
    totalCost :=
      float32.add t.totalCost (float32.mul (float32.ofInt h.NumShares) h.AvgPricePerShare)
    totalValue :=
      float32.add t.totalValue
        (float32.mul (float32.ofInt h.NumShares) (currentValues.index h.Ticker)) }

/-- The `fmt.Printf` call of line 147. -/
def totalsRow (totalShares : Int) (totalCost totalValue totalReturn : float32) : Printf :=
  ⟨totalsFormat,
    [.int totalShares, .float totalCost, .float totalValue, .float totalReturn]⟩

/-- The loop of lines 135-143: the totals once every holding is added. -/
def totals (holdings : List holdingInfo) (currentValues : PriceMap) : Totals :=
  holdings.foldl (addHolding currentValues) ⟨0, float32.zero, float32.zero⟩

/-- Lines 125-148 of `printTotalReturn`: what is printed once the price map
`currentValues` is complete. -/
def report (holdings : List holdingInfo) (currentValues : PriceMap) : List Printf :=
  let out := [separator, headerRow, separator]
  let out := holdings.foldl (fun out h => out ++ [holdingRow h currentValues, separator]) out
  let t := totals holdings currentValues
  let totalReturn := float32.sub t.totalValue t.totalCost
  out ++ [totalsRow t.totalShares t.totalCost t.totalValue totalReturn, separator]

/-- Lines 119-122 of `printTotalReturn`: the tickers of the `getStockPrice`
goroutines the loop starts, in the order they are started. -/
def fanOut (holdings : List holdingInfo) : List String :=
  holdings.foldl (fun started h => started ++ [h.Ticker]) []

/-- The choices of the Go scheduler and run-time system in one run of
`printTotalReturn`. `next` fixes the order in which the goroutines reach their
end (see `finishOrder`); `clash i` tells whether the run-time system catches
the map write of the goroutine started `i`-th overlapping the write of
another; `printed` is the number of lines the main goroutine gets to print
when a panic has released the barrier, before the process dies. -/
structure Schedule where
  next : Nat → Nat
  clash : Nat → Bool
  printed : Nat

/-- The list `xs` with `x` put in at position `i`. -/
def insertAt {α : Type} (i : Nat) (x : α) (xs : List α) : List α :=
  xs.take i ++ x :: xs.drop i

/-- The order in which the started goroutines (index and ticker) reach their
end: each one is put in among the later-started ones at the place `next`
chooses, so every order can be had. -/
def finishOrder (next : Nat → Nat) : List (Nat × String) → List (Nat × String)
  | [] => []
  | g :: gs => insertAt (next gs.length % (gs.length + 1)) g (finishOrder next gs)

/-- How the wait at the barrier `wg.Wait()` ends: every goroutine has
returned (`passed`); the process has ended inside a goroutine while main was
still waiting (`died`); or the last goroutine to finish panicked, and its
deferred `wg.Done()` lets main go on while the process dies (`panicked`). The
price map is the one main then reads. -/
inductive Joined where
  | passed (currentValues : PriceMap)
  | died (e : Exit)
  | panicked (currentValues : PriceMap)

/-- The goroutines run to the barrier, taken in the order `order` in which
they finish; `httpGet i` answers the request of the goroutine started `i`-th,
and `writes` counts the map writes done so far. `log.Fatalf` and the run-time
system's fatal error end the process without running the deferred
`wg.Done()`; a panic runs it first. -/
def joinAll (keyFile : Option String) (httpGet : Nat → String → ApiOutcome)
    (clash : Nat → Bool) : List (Nat × String) → Nat → PriceMap → Joined
  | [], _, prices => .passed prices
  | (i, ticker) :: rest, writes, prices =>
    match getStockPrice ticker prices keyFile (httpGet i) with
    | (written, none) =>
      if 0 < writes ∧ clash i = true then .died .concurrentMapWrites
      else joinAll keyFile httpGet clash rest (writes + 1) written
    | (_, some .indexOutOfRange) =>
      if rest = [] then .panicked prices else .died .indexOutOfRange
    | (_, some e) => .died e

/-- What a run of `printTotalReturn` does: the fetches it starts, what it
prints, and how it ends (`none`: it returns). -/
structure Run where
  started : List String
  stdout : List Printf
  exit : Option Exit
deriving DecidableEq

/-- The function `printTotalReturn(holdings)`: the fan-out, the barrier, the
report. -/
def printTotalReturn (holdings : List holdingInfo) (sched : Schedule)
    (keyFile : Option String) (httpGet : Nat → String → ApiOutcome) : Run :=
  let currentValues := PriceMap.make
  let started := fanOut holdings
  match joinAll keyFile httpGet sched.clash (finishOrder sched.next started.enum) 0
      currentValues with
  | .passed currentValues =>
    { started := started, stdout := report holdings currentValues, exit := none }
  | .died e => { started := started, stdout := [], exit := some e }
  | .panicked currentValues =>
    { started := started, stdout := (report holdings currentValues).take sched.printed,
      exit := some .indexOutOfRange }

/-! ## Reading the output -/

/-- The argument `k` of the `line`-th `fmt.Printf` call of an output. -/
def fieldAt (out : List Printf) (line k : Nat) : Option Arg :=
  (out[line]?).bind (fun p => p.args[k]?)

/-- The exact number a printed argument stands for, when it is a finite
`float32` or an integer. -/
def fieldValue : Option Arg → Option ℚ
  | some (.float x) => x.toRat
  | some (.int n) => some (n : ℚ)
  | _ => none

/-- The `Return` column of an output with `n` holdings: argument 4 of the
lines `3`, `5`, ..., `3 + 2 * (n - 1)`. -/
def returnColumn (out : List Printf) (n : Nat) : List (Option Arg) :=
  (List.range n).map (fun i => fieldAt out (3 + 2 * i) 4)

/-! ## Exact arithmetic, to compare with -/

/-- The exact number `numShares × avgPricePerShare` of a holding. -/
def exactCost (h : holdingInfo) : ℚ :=
  (h.NumShares : ℚ) * h.AvgPricePerShare.val

/-- The exact number `numShares × price(Ticker)` of a holding. -/
def exactValue (currentValues : PriceMap) (h : holdingInfo) : ℚ :=
  (h.NumShares : ℚ) * (currentValues.index h.Ticker).val

/-- The exact number `numShares × (price(Ticker) − avgPricePerShare)` of a
holding. -/
def exactReturn (currentValues : PriceMap) (h : holdingInfo) : ℚ :=
  (h.NumShares : ℚ) * ((currentValues.index h.Ticker).val - h.AvgPricePerShare.val)

/-- No step of the `Return` expression of line 130 rounds, for the holding
`h`: the price and the average cost are numbers, and the share count, the
difference and the product are exactly representable in `float32`. -/
def rowExact (currentValues : PriceMap) (h : holdingInfo) : Prop :=
  (currentValues.index h.Ticker).isFinite = true ∧ h.AvgPricePerShare.isFinite = true ∧
  Representable (h.NumShares : ℚ) ∧
  Representable ((currentValues.index h.Ticker).val - h.AvgPricePerShare.val) ∧
  Representable (exactReturn currentValues h)

/-- No step of the totals (lines 141-144) rounds: the prices and average
costs are numbers, and every share count, every product, every running sum and
the final difference are exactly representable in `float32`. -/
def totalsExact (holdings : List holdingInfo) (currentValues : PriceMap) : Prop :=
  (∀ h ∈ holdings,
    (currentValues.index h.Ticker).isFinite = true ∧ h.AvgPricePerShare.isFinite = true ∧
    Representable (h.NumShares : ℚ) ∧ Representable (exactCost h) ∧
    Representable (exactValue currentValues h)) ∧
  (∀ k : Nat,
    Representable (((holdings.take k).map exactCost).sum) ∧
    Representable (((holdings.take k).map (exactValue currentValues)).sum)) ∧
  Representable ((holdings.map (exactValue currentValues)).sum - (holdings.map exactCost).sum)

/-- The sum of the exact numbers of a column of printed arguments. -/
def columnSum (column : List (Option Arg)) : ℚ :=
  (column.map (fun a => (fieldValue a).getD 0)).sum

/-! ## Concrete inputs -/

/-- The holding `AAPL`, 10 shares at an average of 100.00. -/
def exAAPL : holdingInfo := ⟨"AAPL", 10, float32.ofInt 100⟩

/-- The holding `MSFT`, 5 shares at an average of 200.00. -/
def exMSFT : holdingInfo := ⟨"MSFT", 5, float32.ofInt 200⟩

/-- The holdings of the specification's example. -/
def exHoldings : List holdingInfo := [exAAPL, exMSFT]

/-- Prices `AAPL: 110.00`, `MSFT: 190.00`. -/
def exPrices : PriceMap :=
  (PriceMap.make.assign "AAPL" (float32.ofInt 110)).assign "MSFT" (float32.ofInt 190)

/-- Prices equal to the average costs of `exHoldings`. -/
def exAtCost : PriceMap :=
  (PriceMap.make.assign "AAPL" (float32.ofInt 100)).assign "MSFT" (float32.ofInt 200)

/-- A holding of `AAPL` with no share, bought at 100.00. -/
def exNoShares : holdingInfo := ⟨"AAPL", 0, float32.ofInt 100⟩

/-- Two holdings whose share counts add up to `2^63`. -/
def exLarge : List holdingInfo :=
  [⟨"AAPL", 9223372036854775807, float32.zero⟩, ⟨"MSFT", 1, float32.zero⟩]

/-- A holding of `2^24 + 1` shares of `AAPL`, bought at 1.00. -/
def exOdd : holdingInfo := ⟨"AAPL", 16777217, float32.ofInt 1⟩

/-- The price `AAPL: 2.00`. -/
def exOddPrices : PriceMap := PriceMap.make.assign "AAPL" (float32.ofInt 2)

/-- The `float32` number `2^127`. -/
def exHalfMax : float32 := .finite false 8388608 104

/-- A holding of 2 shares of `AAPL`, bought at `2^127`. -/
def exHuge : holdingInfo := ⟨"AAPL", 2, exHalfMax⟩

/-- The price `AAPL: 2^127`. -/
def exHugePrices : PriceMap := PriceMap.make.assign "AAPL" exHalfMax

/-- One share of `AAPL` and one share of `MSFT`, both bought at 0.00. -/
def exPair : List holdingInfo := [⟨"AAPL", 1, float32.zero⟩, ⟨"MSFT", 1, float32.zero⟩]

/-- Prices `AAPL: 16777216.00`, `MSFT: 1.00`. -/
def exPairPrices : PriceMap :=
  (PriceMap.make.assign "AAPL" (float32.ofInt 16777216)).assign "MSFT" (float32.ofInt 1)

/-- Two holdings of the same ticker. -/
def exTwice : List holdingInfo :=
  [⟨"AAPL", 10, float32.ofInt 100⟩, ⟨"AAPL", 5, float32.ofInt 120⟩]

/-- A daily record that closes at `close`. -/
def exDaily (close : float32) : dailyInfo :=
  { AdjClose := close, AdjHigh := close, AdjLow := close, AdjOpen := close,
    AdjVolume := float32.zero, Close := close, Date := "2021-01-04T00:00:00.000Z",
    DivCash := float32.zero, High := close, Low := close, Open := close,
    SplitFactor := float32.ofInt 1, Volume := float32.zero }

/-- An endpoint that answers every request with one record closing at 110.00. -/
def exHttp : String → ApiOutcome := fun _ => .parsed [exDaily (float32.ofInt 110)]

/-- A run in which the goroutines finish in the order they were started and no
two map writes are caught overlapping. -/
def exSchedule : Schedule := { next := fun _ => 0, clash := fun _ => false, printed := 0 }

/-! ## Auxiliary lemmas: float32 -/

theorem two_pow_toNat (z : Int) (hz : 0 ≤ z) : ((2 ^ z.toNat : ℕ) : ℚ) = (2 : ℚ) ^ z := by
  push_cast
  rw [← zpow_natCast, Int.toNat_of_nonneg hz]

theorem two_zpow_lt {a b : Int} (h : (2 : ℚ) ^ a < (2 : ℚ) ^ b) : a < b :=
  (zpow_lt_zpow_iff_right₀ (by norm_num : (1 : ℚ) < 2)).1 h

theorem bitLengthAux_spec (fuel n : Nat) (h : n ≤ fuel) (hn : n ≠ 0) :
    ∃ L : Nat, float32.bitLengthAux fuel n = L + 1 ∧ 2 ^ L ≤ n ∧ n < 2 ^ (L + 1) := by
  induction fuel generalizing n with
  | zero => omega
  | succ fuel ih =>
    by_cases h2 : n / 2 = 0
    · refine ⟨0, ?_, ?_, ?_⟩
      · cases fuel <;> simp [float32.bitLengthAux, hn, h2]
      · simp; omega
      · simp; omega
    · obtain ⟨L, hL, hlo, hhi⟩ := ih (n / 2) (by omega) h2
      refine ⟨L + 1, ?_, ?_, ?_⟩
      · simp [float32.bitLengthAux, hn, hL]
      · rw [pow_succ]; omega
      · rw [pow_succ]; omega

theorem bitLength_spec (n : Nat) (hn : n ≠ 0) :
    ∃ L : Nat, float32.bitLength n = L + 1 ∧ 2 ^ L ≤ n ∧ n < 2 ^ (L + 1) :=
  bitLengthAux_spec n n (le_refl n) hn

theorem round_exact_finite (neg : Bool) (m : Nat) (e : Int)
    (h : Representable ((m : ℚ) * (2 : ℚ) ^ e)) :
    ∃ (m1 : Nat) (e1 : Int), float32.round neg m e = .finite neg m1 e1 ∧
      (m1 : ℚ) * (2 : ℚ) ^ e1 = (m : ℚ) * (2 : ℚ) ^ e := by
  obtain ⟨M, E, hM, hElo, hEhi, hv⟩ := h
  have h2 : (0 : ℚ) < 2 := by norm_num
  have h2ne : (2 : ℚ) ≠ 0 := by norm_num
  have hpos : ∀ z : Int, (0 : ℚ) < (2 : ℚ) ^ z := fun z => zpow_pos h2 z
  rw [abs_of_nonneg (mul_nonneg (Nat.cast_nonneg m) (hpos e).le)] at hv
  by_cases hm : m = 0
  · exact ⟨0, -149, by simp [float32.round, hm], by simp [hm]⟩
  -- the bit length of m
  obtain ⟨L, hL, hLlo, hLhi⟩ := bitLength_spec m hm
  have hlo : ((2 ^ L : ℕ) : ℚ) ≤ (m : ℚ) := by exact_mod_cast hLlo
  have hhi : (m : ℚ) < ((2 ^ (L + 1) : ℕ) : ℚ) := by exact_mod_cast hLhi
  have hlo1 : (2 : ℚ) ^ ((L : ℕ) : Int) ≤ (m : ℚ) := by
    rw [zpow_natCast]; exact_mod_cast hlo
  have hhi1 : (m : ℚ) < (2 : ℚ) ^ (((L + 1 : ℕ)) : Int) := by
    rw [zpow_natCast]; exact_mod_cast hhi
  have hM1 : (M : ℚ) < (2 : ℚ) ^ (24 : Int) := by
    have : ((M : ℕ) : ℚ) < ((16777216 : ℕ) : ℚ) := by exact_mod_cast hM
    norm_num at this ⊢
    exact this
  -- the value lies in [2^(e+b-1), 2^(e+b)) and below 2^(E+24)
  have hvlo : (2 : ℚ) ^ (((L : ℕ) : Int) + e) ≤ (m : ℚ) * (2 : ℚ) ^ e := by
    rw [zpow_add₀ h2ne]
    exact mul_le_mul_of_nonneg_right hlo1 (hpos e).le
  have hvhi : (m : ℚ) * (2 : ℚ) ^ e < (2 : ℚ) ^ ((((L + 1 : ℕ)) : Int) + e) := by
    rw [zpow_add₀ h2ne]
    exact mul_lt_mul_of_pos_right hhi1 (hpos e)
  have hvE : (m : ℚ) * (2 : ℚ) ^ e < (2 : ℚ) ^ ((24 : Int) + E) := by
    rw [hv, zpow_add₀ h2ne]
    exact mul_lt_mul_of_pos_right hM1 (hpos E)
  have hbE : ((L : ℕ) : Int) + e < 24 + E := two_zpow_lt (lt_of_le_of_lt hvlo hvE)
  -- the exponent of the last place
  obtain ⟨ulp, hulp⟩ : ∃ ulp : Int, ulp = max (e + ((L + 1 : ℕ) : Int) - 24) (-149) :=
    ⟨_, rfl⟩
  have hulpE : ulp ≤ E := by rw [hulp]; push_cast; omega
  have hulp104 : ¬ (104 < ulp) := by omega
  have hulpb : e + ((L + 1 : ℕ) : Int) ≤ ulp + 24 := by rw [hulp]; omega
  by_cases hcase : ulp ≤ e
  · refine ⟨m * 2 ^ (e - ulp).toNat, ulp, ?_, ?_⟩
    · simp only [float32.round, hm, if_false, hL, ← hulp, hcase, if_true, hulp104]
    · rw [Nat.cast_mul, two_pow_toNat _ (by omega), mul_assoc, ← zpow_add₀ h2ne]
      congr 2
      omega
  · -- m is a multiple of 2^(ulp - e)
    have hmM : m = M * 2 ^ (E - e).toNat := by
      have : (m : ℚ) = ((M * 2 ^ (E - e).toNat : ℕ) : ℚ) := by
        rw [Nat.cast_mul, two_pow_toNat _ (by omega), zpow_sub₀ h2ne, ← mul_div_assoc, ← hv]
        field_simp
      exact_mod_cast this
    have hsplit : (E - e).toNat = (E - ulp).toNat + (ulp - e).toNat := by omega
    have hmq : m = (M * 2 ^ (E - ulp).toNat) * 2 ^ (ulp - e).toNat := by
      rw [hmM, hsplit, pow_add, mul_assoc]
    have hkpos : 0 < 2 ^ (ulp - e).toNat := Nat.pow_pos (by norm_num)
    have hq : m / 2 ^ (ulp - e).toNat = M * 2 ^ (E - ulp).toNat := by
      rw [hmq, Nat.mul_div_cancel _ hkpos]
    have hr : m % 2 ^ (ulp - e).toNat = 0 := by
      rw [hmq, Nat.mul_mod_left]
    have hhalf : 0 < 2 ^ ((ulp - e).toNat - 1) := Nat.pow_pos (by norm_num)
    have hqval : ((M * 2 ^ (E - ulp).toNat : ℕ) : ℚ) * (2 : ℚ) ^ ulp = (m : ℚ) * (2 : ℚ) ^ e := by
      rw [Nat.cast_mul, two_pow_toNat _ (by omega), mul_assoc, ← zpow_add₀ h2ne, hv]
      congr 2
      omega
    have hqlt : M * 2 ^ (E - ulp).toNat < 16777216 := by
      have h1 : ((M * 2 ^ (E - ulp).toNat : ℕ) : ℚ) * (2 : ℚ) ^ ulp <
          (2 : ℚ) ^ (24 : Int) * (2 : ℚ) ^ ulp := by
        rw [hqval, ← zpow_add₀ h2ne]
        refine lt_of_lt_of_le hvhi (zpow_le_zpow_right₀ (by norm_num) (by omega))
      have h3 := lt_of_mul_lt_mul_right h1 (hpos ulp).le
      have : ((M * 2 ^ (E - ulp).toNat : ℕ) : ℚ) < ((16777216 : ℕ) : ℚ) := by
        norm_num at h3 ⊢
        exact h3
      exact_mod_cast this
    refine ⟨M * 2 ^ (E - ulp).toNat, ulp, ?_, hqval⟩
    have hne : ¬ (0 = 2 ^ ((ulp - e).toNat - 1)) := by omega
    have hnl : ¬ (2 ^ ((ulp - e).toNat - 1) < 0) := by omega
    simp only [float32.round, hm, if_false, hL, ← hulp, hcase, hq, hr, hnl, hne, false_and, or_false,
      hulp104, Nat.ne_of_lt hqlt]


theorem representable_natCast_mul (m : Nat) (e : Int) (q : ℚ) (h : Representable q)
    (hq : |q| = (m : ℚ) * (2 : ℚ) ^ e) : Representable ((m : ℚ) * (2 : ℚ) ^ e) := by
  obtain ⟨M, E, hM, hlo, hhi, hv⟩ := h
  refine ⟨M, E, hM, hlo, hhi, ?_⟩
  rw [← hq, abs_abs, hv]

theorem representable_int (z : Int) (h : z.natAbs < 16777216) : Representable (z : ℚ) := by
  refine ⟨z.natAbs, 0, h, by norm_num, by norm_num, ?_⟩
  rw [zpow_zero, mul_one, Nat.cast_natAbs, Int.cast_abs]

theorem representable_zero : Representable 0 := by
  simpa using representable_int 0 (by decide)

theorem float32.toRat_of_isFinite (x : float32) (h : x.isFinite = true) :
    x.toRat = some x.val := by
  cases x <;> simp_all [float32.isFinite, float32.val, float32.toRat]

theorem float32.round_exact (neg : Bool) (m : Nat) (e : Int)
    (h : Representable ((m : ℚ) * (2 : ℚ) ^ e)) :
    (float32.round neg m e).isFinite = true ∧
      (float32.round neg m e).val = (if neg then -1 else 1) * ((m : ℚ) * (2 : ℚ) ^ e) := by
  obtain ⟨m1, e1, hr, hv⟩ := round_exact_finite neg m e h
  rw [hr]
  refine ⟨rfl, ?_⟩
  simp only [float32.val, float32.toRat, Option.getD_some]
  rw [mul_assoc, hv]

theorem float32.ofInt_exact (z : Int) (h : Representable (z : ℚ)) :
    (float32.ofInt z).isFinite = true ∧ (float32.ofInt z).val = (z : ℚ) := by
  have hrep : Representable ((z.natAbs : ℚ) * (2 : ℚ) ^ (0 : Int)) :=
    representable_natCast_mul _ _ _ h (by
      rw [zpow_zero, mul_one, Nat.cast_natAbs, Int.cast_abs])
  obtain ⟨hf, hv⟩ := float32.round_exact (decide (z < 0)) z.natAbs 0 hrep
  refine ⟨hf, ?_⟩
  unfold float32.ofInt
  rw [hv, zpow_zero, mul_one, Nat.cast_natAbs, Int.cast_abs]
  by_cases hz : z < 0
  · have : (z : ℚ) < 0 := by exact_mod_cast hz
    simp [hz, abs_of_neg this]
  · have : (0 : ℚ) ≤ (z : ℚ) := by exact_mod_cast (not_lt.1 hz)
    simp [hz, abs_of_nonneg this]

theorem float32.mul_exact (x y : float32) (hx : x.isFinite = true) (hy : y.isFinite = true)
    (h : Representable (x.val * y.val)) :
    (float32.mul x y).isFinite = true ∧ (float32.mul x y).val = x.val * y.val := by
  cases x with
  | finite s m e =>
    cases y with
    | finite t n f =>
      have h2ne : (2 : ℚ) ≠ 0 := by norm_num
      have hval : |(float32.finite s m e).val * (float32.finite t n f).val| =
          ((m * n : ℕ) : ℚ) * (2 : ℚ) ^ (e + f) := by
        simp only [float32.val, float32.toRat, Option.getD_some]
        rw [zpow_add₀ h2ne, Nat.cast_mul]
        have hp : ∀ z : Int, |(2 : ℚ) ^ z| = (2 : ℚ) ^ z := fun z =>
          abs_of_pos (zpow_pos (by norm_num) z)
        cases s <;> cases t <;> simp [abs_mul, hp] <;> ring
      obtain ⟨hf, hv⟩ := float32.round_exact (xor s t) (m * n) (e + f)
        (representable_natCast_mul _ _ _ h hval)
      refine ⟨hf, ?_⟩
      show (float32.round (xor s t) (m * n) (e + f)).val = _
      rw [hv]
      simp only [float32.val, float32.toRat, Option.getD_some]
      rw [zpow_add₀ h2ne, Nat.cast_mul]
      cases s <;> cases t <;> simp <;> ring
    | inf t => simp [float32.isFinite] at hy
    | nan => simp [float32.isFinite] at hy
  | inf s => simp [float32.isFinite] at hx
  | nan => simp [float32.isFinite] at hx

theorem float32.signed_cast (s : Bool) (m : Nat) :
    ((float32.signed s m : Int) : ℚ) = (if s then -1 else 1) * (m : ℚ) := by
  cases s <;> simp [float32.signed]

theorem float32.add_exact (x y : float32) (hx : x.isFinite = true) (hy : y.isFinite = true)
    (h : Representable (x.val + y.val)) :
    (float32.add x y).isFinite = true ∧ (float32.add x y).val = x.val + y.val := by
  cases x with
  | finite s m e =>
    cases y with
    | finite t n f =>
      have h2ne : (2 : ℚ) ≠ 0 := by norm_num
      obtain ⟨g, hg⟩ : ∃ g : Int, g = min e f := ⟨_, rfl⟩
      obtain ⟨c, hc⟩ : ∃ c : Int, c = float32.signed s (m * 2 ^ (e - g).toNat) +
        float32.signed t (n * 2 ^ (f - g).toNat) := ⟨_, rfl⟩
      have hge : g ≤ e := by rw [hg]; exact min_le_left _ _
      have hgf : g ≤ f := by rw [hg]; exact min_le_right _ _
      have hsum : (c : ℚ) * (2 : ℚ) ^ g =
          (float32.finite s m e).val + (float32.finite t n f).val := by
        simp only [float32.val, float32.toRat, Option.getD_some]
        rw [hc, Int.cast_add, float32.signed_cast, float32.signed_cast, Nat.cast_mul,
          Nat.cast_mul, two_pow_toNat _ (by omega), two_pow_toNat _ (by omega), add_mul]
        have he : (2 : ℚ) ^ (e - g) * (2 : ℚ) ^ g = (2 : ℚ) ^ e := by
          rw [← zpow_add₀ h2ne]; congr 1; omega
        have hf : (2 : ℚ) ^ (f - g) * (2 : ℚ) ^ g = (2 : ℚ) ^ f := by
          rw [← zpow_add₀ h2ne]; congr 1; omega
        rw [mul_assoc, mul_assoc, he, mul_assoc, mul_assoc, hf]
        ring
      have hadd : float32.add (.finite s m e) (.finite t n f) =
          if c = 0 then .finite (s && t) 0 (-149)
          else float32.round (decide (c < 0)) c.natAbs g := by
        simp only [float32.add, ← hg, ← hc]
      rw [hadd]
      by_cases hc0 : c = 0
      · rw [if_pos hc0]
        refine ⟨rfl, ?_⟩
        rw [← hsum, hc0]
        simp [float32.val, float32.toRat]
      · rw [if_neg hc0]
        have habs : |(float32.finite s m e).val + (float32.finite t n f).val| =
            ((c.natAbs : ℕ) : ℚ) * (2 : ℚ) ^ g := by
          rw [← hsum, abs_mul, abs_of_pos (zpow_pos (by norm_num : (0 : ℚ) < 2) g),
            Nat.cast_natAbs, Int.cast_abs]
        obtain ⟨hfin, hv⟩ := float32.round_exact (decide (c < 0)) c.natAbs g
          (representable_natCast_mul _ _ _ h habs)
        refine ⟨hfin, ?_⟩
        rw [hv, ← hsum, Nat.cast_natAbs, Int.cast_abs]
        by_cases hneg : c < 0
        · have : (c : ℚ) < 0 := by exact_mod_cast hneg
          simp [hneg, abs_of_neg this]
        · have : (0 : ℚ) ≤ (c : ℚ) := by exact_mod_cast (not_lt.1 hneg)
          simp [hneg, abs_of_nonneg this]
    | inf t => simp [float32.isFinite] at hy
    | nan => simp [float32.isFinite] at hy
  | inf s => simp [float32.isFinite] at hx
  | nan => simp [float32.isFinite] at hx

theorem float32.neg_isFinite (x : float32) : (float32.neg x).isFinite = x.isFinite := by
  cases x <;> rfl

theorem float32.neg_val (x : float32) : (float32.neg x).val = -x.val := by
  cases x with
  | finite s m e => cases s <;> simp [float32.neg, float32.val, float32.toRat]
  | inf s => simp [float32.neg, float32.val, float32.toRat]
  | nan => simp [float32.neg, float32.val, float32.toRat]

theorem float32.sub_exact (x y : float32) (hx : x.isFinite = true) (hy : y.isFinite = true)
    (h : Representable (x.val - y.val)) :
    (float32.sub x y).isFinite = true ∧ (float32.sub x y).val = x.val - y.val := by
  have hny : (float32.neg y).isFinite = true := by rw [float32.neg_isFinite]; exact hy
  have := float32.add_exact x (float32.neg y) hx hny (by
    rw [float32.neg_val, ← sub_eq_add_neg]; exact h)
  rw [float32.neg_val, ← sub_eq_add_neg] at this
  exact this

theorem float32.sub_self_finite (s : Bool) (m : Nat) (e : Int) :
    float32.sub (.finite s m e) (.finite s m e) = float32.zero := by
  cases s <;> simp [float32.sub, float32.neg, float32.add, float32.signed, float32.zero]

theorem float32.sub_self_of_not_finite (x : float32) (h : x.isFinite = false) :
    float32.sub x x = .nan := by
  cases x with
  | finite s m e => simp [float32.isFinite] at h
  | inf s => cases s <;> simp [float32.sub, float32.neg, float32.add]
  | nan => simp [float32.sub, float32.neg, float32.add]

theorem float32.ofInt_zero : float32.ofInt 0 = float32.zero := by
  simp [float32.ofInt, float32.round, float32.zero]

theorem float32.zero_mul_finite (s : Bool) (m : Nat) (e : Int) :
    float32.mul float32.zero (.finite s m e) = .finite s 0 (-149) := by
  simp [float32.mul, float32.zero, float32.round]

theorem float32.zero_mul_of_not_finite (x : float32) (h : x.isFinite = false) :
    float32.mul float32.zero x = .nan := by
  cases x with
  | finite s m e => simp [float32.isFinite] at h
  | inf s => simp [float32.mul, float32.zero]
  | nan => simp [float32.mul, float32.zero]

/-! ## Auxiliary lemmas: the report -/

theorem wrapInt_add_wrapInt (a b : Int) : wrapInt (wrapInt a + b) = wrapInt (a + b) := by
  unfold wrapInt
  omega

theorem wrapInt_of_inRange (z : Int) (hlo : -9223372036854775808 ≤ z)
    (hhi : z < 9223372036854775808) : wrapInt z = z := by
  unfold wrapInt
  omega

theorem rows_foldl (cv : PriceMap) (hs : List holdingInfo) (init : List Printf) :
    hs.foldl (fun out h => out ++ [holdingRow h cv, separator]) init =
      init ++ hs.flatMap (fun h => [holdingRow h cv, separator]) := by
  induction hs generalizing init with
  | nil => simp
  | cons h hs ih => simp [List.foldl_cons, ih, List.flatMap_cons]

theorem rows_length (cv : PriceMap) (hs : List holdingInfo) :
    (hs.flatMap (fun h => [holdingRow h cv, separator])).length = 2 * hs.length := by
  induction hs with
  | nil => simp
  | cons h hs ih => simp [List.flatMap_cons, ih]; omega

theorem foldl_totalShares (cv : PriceMap) (hs : List holdingInfo) (t : Totals)
    (ht : wrapInt t.totalShares = t.totalShares) :
    (hs.foldl (addHolding cv) t).totalShares =
      wrapInt (t.totalShares + (hs.map (fun h => h.NumShares)).sum) := by
  induction hs generalizing t with
  | nil => simpa using ht.symm
  | cons h hs ih =>
    rw [List.foldl_cons, ih]
    · simp only [addHolding, List.map_cons, List.sum_cons]
      rw [wrapInt_add_wrapInt, add_assoc]
    · simp only [addHolding]
      unfold wrapInt
      omega

theorem foldl_totalCost (cv : PriceMap) (hs : List holdingInfo) (t : Totals) :
    (hs.foldl (addHolding cv) t).totalCost =
      hs.foldl (fun c h =>
        float32.add c (float32.mul (float32.ofInt h.NumShares) h.AvgPricePerShare))
        t.totalCost := by
  induction hs generalizing t with
  | nil => rfl
  | cons h hs ih => rw [List.foldl_cons, List.foldl_cons, ih]; rfl

theorem foldl_totalValue (cv : PriceMap) (hs : List holdingInfo) (t : Totals) :
    (hs.foldl (addHolding cv) t).totalValue =
      hs.foldl (fun v h =>
        float32.add v (float32.mul (float32.ofInt h.NumShares) (cv.index h.Ticker)))
        t.totalValue := by
  induction hs generalizing t with
  | nil => rfl
  | cons h hs ih => rw [List.foldl_cons, List.foldl_cons, ih]; rfl

theorem totals_totalShares (hs : List holdingInfo) (cv : PriceMap) :
    (totals hs cv).totalShares = wrapInt ((hs.map (fun h => h.NumShares)).sum) := by
  unfold totals
  rw [foldl_totalShares]
  · simp
  · simp [wrapInt]

theorem totals_totalCost (hs : List holdingInfo) (cv : PriceMap) :
    (totals hs cv).totalCost =
      hs.foldl (fun c h =>
        float32.add c (float32.mul (float32.ofInt h.NumShares) h.AvgPricePerShare))
        float32.zero := by
  unfold totals
  rw [foldl_totalCost]

theorem totals_totalValue (hs : List holdingInfo) (cv : PriceMap) :
    (totals hs cv).totalValue =
      hs.foldl (fun v h =>
        float32.add v (float32.mul (float32.ofInt h.NumShares) (cv.index h.Ticker)))
        float32.zero := by
  unfold totals
  rw [foldl_totalValue]

/-- A `float32` running sum of products `float32(numShares) * g h` is exact
when nothing in it needs rounding. -/
theorem foldl_sum_exact (g : holdingInfo → float32) (hs : List holdingInfo) (c : float32)
    (hc : c.isFinite = true)
    (hterm : ∀ h ∈ hs, (g h).isFinite = true ∧ Representable (h.NumShares : ℚ) ∧
      Representable ((h.NumShares : ℚ) * (g h).val))
    (hsum : ∀ k : Nat,
      Representable (c.val + ((hs.take k).map (fun h => (h.NumShares : ℚ) * (g h).val)).sum)) :
    (hs.foldl (fun c h => float32.add c (float32.mul (float32.ofInt h.NumShares) (g h)))
        c).isFinite = true ∧
    (hs.foldl (fun c h => float32.add c (float32.mul (float32.ofInt h.NumShares) (g h)))
        c).val = c.val + (hs.map (fun h => (h.NumShares : ℚ) * (g h).val)).sum := by
  induction hs generalizing c with
  | nil => simp [hc]
  | cons h hs ih =>
    obtain ⟨hg, hn, hprod⟩ := hterm h (List.mem_cons_self h hs)
    obtain ⟨hnf, hnv⟩ := float32.ofInt_exact h.NumShares hn
    obtain ⟨hpf, hpv⟩ := float32.mul_exact (float32.ofInt h.NumShares) (g h) hnf hg
      (by rw [hnv]; exact hprod)
    rw [hnv] at hpv
    have h1 := hsum 1
    simp only [List.take_succ_cons, List.take_zero, List.map_cons, List.map_nil, List.sum_cons,
      List.sum_nil, add_zero] at h1
    obtain ⟨haf, hav⟩ := float32.add_exact c (float32.mul (float32.ofInt h.NumShares) (g h))
      hc hpf (by rw [hpv]; exact h1)
    rw [hpv] at hav
    have hrest := ih (float32.add c (float32.mul (float32.ofInt h.NumShares) (g h))) haf
      (fun x hx => hterm x (List.mem_cons_of_mem h hx))
      (fun k => by
        have hk := hsum (k + 1)
        simp only [List.take_succ_cons, List.map_cons, List.sum_cons] at hk
        rw [hav, add_assoc]
        exact hk)
    rw [List.foldl_cons, List.map_cons, List.sum_cons]
    refine ⟨hrest.1, ?_⟩
    rw [hrest.2, hav, add_assoc]

theorem foldl_value_eq_cost (cv : PriceMap) (hs : List holdingInfo) (t : Totals)
    (hprice : ∀ h ∈ hs, cv.index h.Ticker = h.AvgPricePerShare)
    (ht : t.totalValue = t.totalCost) :
    (hs.foldl (addHolding cv) t).totalValue = (hs.foldl (addHolding cv) t).totalCost := by
  induction hs generalizing t with
  | nil => exact ht
  | cons h hs ih =>
    rw [List.foldl_cons]
    apply ih _ (fun x hx => hprice x (List.mem_cons_of_mem h hx))
    simp only [addHolding, ht, hprice h (List.mem_cons_self h hs)]

/-- The closed form of the report: header block, two lines per holding, the
TOTALS row and the last separator. -/
theorem report_eq (hs : List holdingInfo) (cv : PriceMap) :
    report hs cv =
      [separator, headerRow, separator] ++
        hs.flatMap (fun h => [holdingRow h cv, separator]) ++
        [totalsRow (totals hs cv).totalShares (totals hs cv).totalCost (totals hs cv).totalValue
            (float32.sub (totals hs cv).totalValue (totals hs cv).totalCost), separator] := by
  simp only [report, rows_foldl]

theorem getElem?_skip_two {α : Type} (A B C : List α) (n k : Nat)
    (hn : n = A.length + B.length + k) : (A ++ (B ++ C))[n]? = C[k]? := by
  subst hn
  rw [List.getElem?_append_right (by omega), List.getElem?_append_right (by omega)]
  congr 1
  omega

/-- The line of the holding that follows `pre` in the holdings list. -/
theorem report_line_holding (pre post : List holdingInfo) (h : holdingInfo) (cv : PriceMap) :
    (report (pre ++ h :: post) cv)[3 + 2 * pre.length]? = some (holdingRow h cv) := by
  rw [report_eq, List.flatMap_append, List.flatMap_cons]
  have hlen := rows_length cv pre
  simp only [List.append_assoc]
  rw [getElem?_skip_two _ _ _ _ 0 (by rw [hlen]; simp)]
  simp

/-- The separator after the line of the holding that follows `pre`. -/
theorem report_line_separator (pre post : List holdingInfo) (h : holdingInfo) (cv : PriceMap) :
    (report (pre ++ h :: post) cv)[3 + 2 * pre.length + 1]? = some separator := by
  rw [report_eq, List.flatMap_append, List.flatMap_cons]
  have hlen := rows_length cv pre
  simp only [List.append_assoc]
  rw [getElem?_skip_two _ _ _ _ 1 (by rw [hlen]; simp)]
  simp

/-- The TOTALS line comes after the header block and the lines of the holdings. -/
theorem report_line_totals (hs : List holdingInfo) (cv : PriceMap) :
    (report hs cv)[3 + 2 * hs.length]? =
      some (totalsRow (totals hs cv).totalShares (totals hs cv).totalCost
        (totals hs cv).totalValue
        (float32.sub (totals hs cv).totalValue (totals hs cv).totalCost)) := by
  rw [report_eq]
  have hlen := rows_length cv hs
  simp only [List.append_assoc]
  rw [getElem?_skip_two _ _ _ _ 0 (by rw [hlen]; simp)]
  simp

theorem fieldAt_holding (pre post : List holdingInfo) (h : holdingInfo) (cv : PriceMap)
    (k : Nat) :
    fieldAt (report (pre ++ h :: post) cv) (3 + 2 * pre.length) k = (holdingRow h cv).args[k]? := by
  simp [fieldAt, report_line_holding]

theorem fieldAt_totals (hs : List holdingInfo) (cv : PriceMap) (k : Nat) :
    fieldAt (report hs cv) (3 + 2 * hs.length) k =
      (totalsRow (totals hs cv).totalShares (totals hs cv).totalCost (totals hs cv).totalValue
        (float32.sub (totals hs cv).totalValue (totals hs cv).totalCost)).args[k]? := by
  simp [fieldAt, report_line_totals]

theorem rows_filter_rowFormat (cv : PriceMap) (hs : List holdingInfo) :
    ((hs.flatMap (fun h => [holdingRow h cv, separator])).filter
      (fun p => p.format = rowFormat)).length = hs.length := by
  induction hs with
  | nil => simp
  | cons h hs ih =>
    have hsep : separator.format ≠ rowFormat := by decide
    simp only [List.flatMap_cons, List.filter_append, List.length_append, ih]
    simp [List.filter_cons, holdingRow, hsep]
    omega

theorem rows_filter_totalsFormat (cv : PriceMap) (hs : List holdingInfo) :
    (hs.flatMap (fun h => [holdingRow h cv, separator])).filter
      (fun p => p.format = totalsFormat) = [] := by
  induction hs with
  | nil => simp
  | cons h hs ih =>
    have hsep : separator.format ≠ totalsFormat := by decide
    have hrow : rowFormat ≠ totalsFormat := by decide
    simp only [List.flatMap_cons, List.filter_append, ih]
    simp [List.filter_cons, holdingRow, hsep, hrow]

theorem fanOut_foldl (hs : List holdingInfo) (init : List String) :
    hs.foldl (fun started h => started ++ [h.Ticker]) init =
      init ++ hs.map (fun h => h.Ticker) := by
  induction hs generalizing init with
  | nil => simp
  | cons h hs ih => simp [List.foldl_cons, ih]

theorem fanOut_eq (hs : List holdingInfo) : fanOut hs = hs.map (fun h => h.Ticker) := by
  simp [fanOut, fanOut_foldl]

theorem printTotalReturn_started (hs : List holdingInfo) (sched : Schedule)
    (keyFile : Option String) (httpGet : Nat → String → ApiOutcome) :
    (printTotalReturn hs sched keyFile httpGet).started = fanOut hs := by
  simp only [printTotalReturn]
  generalize joinAll keyFile httpGet sched.clash
    (finishOrder sched.next (fanOut hs).enum) 0 PriceMap.make = r
  cases r <;> rfl

theorem count_map_ticker (hs : List holdingInfo) (t : String) :
    (hs.map (fun h => h.Ticker)).count t = (hs.filter (fun h => h.Ticker = t)).length := by
  induction hs with
  | nil => simp
  | cons h hs ih =>
    by_cases hh : h.Ticker = t
    · simp [List.filter_cons, hh, ih]
    · simp [List.filter_cons, hh, ih, List.count_cons]

theorem returnColumn_report (hs : List holdingInfo) (cv : PriceMap) :
    returnColumn (report hs cv) hs.length =
      hs.map (fun h =>
        some (Arg.float (float32.mul (float32.ofInt h.NumShares)
          (float32.sub (cv.index h.Ticker) h.AvgPricePerShare)))) := by
  apply List.ext_getElem?
  intro i
  by_cases hi : i < hs.length
  · have hsplit : hs = hs.take i ++ hs[i] :: hs.drop (i + 1) := by
      rw [← List.drop_eq_getElem_cons hi, List.take_append_drop]
    have hlen : (hs.take i).length = i := by simp; omega
    have hf := fieldAt_holding (hs.take i) (hs.drop (i + 1)) hs[i] cv 4
    rw [← hsplit, hlen] at hf
    simp [returnColumn, hi, hf, holdingRow]
  · have hle : hs.length ≤ i := by omega
    simp [returnColumn, List.getElem?_eq_none, hle]

/-- The `Return` expression of line 130 is exact when no step of it rounds. -/
theorem row_return_exact (cv : PriceMap) (h : holdingInfo) (hex : rowExact cv h) :
    (float32.mul (float32.ofInt h.NumShares)
      (float32.sub (cv.index h.Ticker) h.AvgPricePerShare)).toRat =
      some (exactReturn cv h) := by
  obtain ⟨hp, ha, hn, hd, hr⟩ := hex
  obtain ⟨hnf, hnv⟩ := float32.ofInt_exact h.NumShares hn
  obtain ⟨hdf, hdv⟩ := float32.sub_exact _ _ hp ha hd
  obtain ⟨hmf, hmv⟩ := float32.mul_exact _ _ hnf hdf (by rw [hnv, hdv]; exact hr)
  rw [float32.toRat_of_isFinite _ hmf, hmv, hnv, hdv]
  rfl

/-- The totals of lines 141-144 are exact when no step of them rounds. -/
theorem totals_exact (hs : List holdingInfo) (cv : PriceMap) (hex : totalsExact hs cv) :
    (totals hs cv).totalCost.toRat = some ((hs.map exactCost).sum) ∧
    (totals hs cv).totalValue.toRat = some ((hs.map (exactValue cv)).sum) ∧
    (float32.sub (totals hs cv).totalValue (totals hs cv).totalCost).toRat =
      some ((hs.map (exactValue cv)).sum - (hs.map exactCost).sum) := by
  obtain ⟨hterm, hsum, hdiff⟩ := hex
  have hz : float32.zero.isFinite = true := rfl
  have hzv : float32.zero.val = 0 := by simp [float32.zero, float32.val, float32.toRat]
  obtain ⟨hcf, hcv⟩ := foldl_sum_exact (fun h => h.AvgPricePerShare) hs float32.zero hz
    (fun h hh => ⟨(hterm h hh).2.1, (hterm h hh).2.2.1, (hterm h hh).2.2.2.1⟩)
    (fun k => by rw [hzv, zero_add]; exact (hsum k).1)
  obtain ⟨hvf, hvv⟩ := foldl_sum_exact (fun h => cv.index h.Ticker) hs float32.zero hz
    (fun h hh => ⟨(hterm h hh).1, (hterm h hh).2.2.1, (hterm h hh).2.2.2.2⟩)
    (fun k => by rw [hzv, zero_add]; exact (hsum k).2)
  rw [hzv, zero_add] at hcv hvv
  rw [← totals_totalCost hs cv] at hcf hcv
  rw [← totals_totalValue hs cv] at hvf hvv
  have hcv1 : (totals hs cv).totalCost.val = (hs.map exactCost).sum := hcv
  have hvv1 : (totals hs cv).totalValue.val = (hs.map (exactValue cv)).sum := hvv
  obtain ⟨hdf, hdv⟩ := float32.sub_exact _ _ hvf hcf (by rw [hcv1, hvv1]; exact hdiff)
  refine ⟨?_, ?_, ?_⟩
  · rw [float32.toRat_of_isFinite _ hcf, hcv1]
  · rw [float32.toRat_of_isFinite _ hvf, hvv1]
  · rw [float32.toRat_of_isFinite _ hdf, hdv, hcv1, hvv1]

theorem sum_value_sub_sum_cost (hs : List holdingInfo) (cv : PriceMap) :
    (hs.map (exactValue cv)).sum - (hs.map exactCost).sum = (hs.map (exactReturn cv)).sum := by
  induction hs with
  | nil => simp
  | cons h hs ih =>
    simp only [List.map_cons, List.sum_cons]
    rw [← ih]
    simp only [exactValue, exactCost, exactReturn]
    ring

/-! ## Auxiliary lemmas: the concrete inputs -/

theorem float32.ofInt_small (z : Int) (h : z.natAbs < 16777216) :
    (float32.ofInt z).isFinite = true ∧ (float32.ofInt z).val = (z : ℚ) :=
  float32.ofInt_exact z (representable_int z h)

theorem representable_ofNat (n : Nat) (h : n < 16777216) : Representable (n : ℚ) := by
  have := representable_int (n : Int) (by simpa using h)
  simpa using this

theorem exPrices_AAPL : exPrices.index "AAPL" = float32.ofInt 110 := by decide

theorem exPrices_MSFT : exPrices.index "MSFT" = float32.ofInt 190 := by decide

theorem val_ofInt_100 : (float32.ofInt 100).val = 100 := by
  simpa using (float32.ofInt_small 100 (by decide)).2

theorem val_ofInt_110 : (float32.ofInt 110).val = 110 := by
  simpa using (float32.ofInt_small 110 (by decide)).2

theorem val_ofInt_190 : (float32.ofInt 190).val = 190 := by
  simpa using (float32.ofInt_small 190 (by decide)).2

theorem val_ofInt_200 : (float32.ofInt 200).val = 200 := by
  simpa using (float32.ofInt_small 200 (by decide)).2

theorem rowExact_exAAPL : rowExact exPrices exAAPL := by
  refine ⟨by decide, by decide, ?_, ?_, ?_⟩
  · simpa [exAAPL] using representable_ofNat 10 (by decide)
  · simp only [exAAPL, exPrices_AAPL, val_ofInt_100, val_ofInt_110]
    norm_num
    exact representable_ofNat 10 (by decide)
  · simp only [exactReturn, exAAPL, exPrices_AAPL, val_ofInt_100, val_ofInt_110]
    norm_num
    exact representable_ofNat 100 (by decide)

theorem rowExact_exMSFT : rowExact exPrices exMSFT := by
  refine ⟨by decide, by decide, ?_, ?_, ?_⟩
  · simpa [exMSFT] using representable_ofNat 5 (by decide)
  · simp only [exMSFT, exPrices_MSFT, val_ofInt_200, val_ofInt_190]
    norm_num
    have := representable_int (-10) (by decide)
    simpa using this
  · simp only [exactReturn, exMSFT, exPrices_MSFT, val_ofInt_200, val_ofInt_190]
    norm_num
    have := representable_int (-50) (by decide)
    simpa using this

theorem exactCost_exAAPL : exactCost exAAPL = 1000 := by
  simp only [exactCost, exAAPL, val_ofInt_100]; norm_num

theorem exactCost_exMSFT : exactCost exMSFT = 1000 := by
  simp only [exactCost, exMSFT, val_ofInt_200]; norm_num

theorem exactValue_exAAPL : exactValue exPrices exAAPL = 1100 := by
  simp only [exactValue, exAAPL, exPrices_AAPL, val_ofInt_110]; norm_num

theorem exactValue_exMSFT : exactValue exPrices exMSFT = 950 := by
  simp only [exactValue, exMSFT, exPrices_MSFT, val_ofInt_190]; norm_num

theorem exactReturn_exAAPL : exactReturn exPrices exAAPL = 100 := by
  simp only [exactReturn, exAAPL, exPrices_AAPL, val_ofInt_100, val_ofInt_110]; norm_num

theorem exactReturn_exMSFT : exactReturn exPrices exMSFT = -50 := by
  simp only [exactReturn, exMSFT, exPrices_MSFT, val_ofInt_200, val_ofInt_190]; norm_num

theorem totalsExact_exHoldings : totalsExact exHoldings exPrices := by
  refine ⟨?_, ?_, ?_⟩
  · intro h hh
    simp only [exHoldings, List.mem_cons, List.mem_singleton, List.not_mem_nil, or_false] at hh
    rcases hh with rfl | rfl
    · refine ⟨by decide, by decide, ?_, ?_, ?_⟩
      · simpa [exAAPL] using representable_ofNat 10 (by decide)
      · rw [exactCost_exAAPL]; exact representable_ofNat 1000 (by decide)
      · rw [exactValue_exAAPL]; exact representable_ofNat 1100 (by decide)
    · refine ⟨by decide, by decide, ?_, ?_, ?_⟩
      · simpa [exMSFT] using representable_ofNat 5 (by decide)
      · rw [exactCost_exMSFT]; exact representable_ofNat 1000 (by decide)
      · rw [exactValue_exMSFT]; exact representable_ofNat 950 (by decide)
  · intro k
    rcases k with _ | _ | k
    · simp only [exHoldings, List.take_zero, List.map_nil, List.sum_nil]
      exact ⟨representable_zero, representable_zero⟩
    · simp only [exHoldings, List.take_succ_cons, List.take_zero, List.map_cons, List.map_nil,
        List.sum_cons, List.sum_nil, exactCost_exAAPL, exactValue_exAAPL]
      norm_num
      exact ⟨representable_ofNat 1000 (by decide), representable_ofNat 1100 (by decide)⟩
    · simp only [exHoldings, List.take_succ_cons, List.take_nil, List.map_cons, List.map_nil,
        List.sum_cons, List.sum_nil, exactCost_exAAPL, exactValue_exAAPL, exactCost_exMSFT,
        exactValue_exMSFT]
      norm_num
      exact ⟨representable_ofNat 2000 (by decide), representable_ofNat 2050 (by decide)⟩
  · simp only [exHoldings, List.map_cons, List.map_nil, List.sum_cons, List.sum_nil,
      exactCost_exAAPL, exactValue_exAAPL, exactCost_exMSFT, exactValue_exMSFT]
    norm_num
    exact representable_ofNat 50 (by decide)

set_option maxRecDepth 8192 in
theorem exOdd_cost_field :
    fieldAt (report [exOdd] exOddPrices) 5 1 = some (.float (.finite false 8388608 1)) := by
  decide

set_option maxRecDepth 8192 in
theorem exPair_return_AAPL :
    fieldAt (report exPair exPairPrices) 3 4 = some (.float (.finite false 8388608 1)) := by
  decide

set_option maxRecDepth 8192 in
theorem exPair_return_MSFT :
    fieldAt (report exPair exPairPrices) 5 4 = some (.float (.finite false 8388608 (-23))) := by
  decide

set_option maxRecDepth 8192 in
theorem exPair_return_total :
    fieldAt (report exPair exPairPrices) 7 3 = some (.float (.finite false 8388608 1)) := by
  decide

set_option maxRecDepth 8192 in
theorem exAtCost_totalCost_isFinite :
    (totals exHoldings exAtCost).totalCost.isFinite = true := by
  decide

set_option maxRecDepth 8192 in
theorem exNoShares_difference :
    float32.sub (exPrices.index exNoShares.Ticker) exNoShares.AvgPricePerShare =
      .finite false 10485760 (-20) := by
  decide

set_option maxRecDepth 8192 in
theorem exNoShares_difference_unpriced :
    float32.sub (PriceMap.make.index exNoShares.Ticker) exNoShares.AvgPricePerShare =
      .finite true 13107200 (-17) := by
  decide

/-! ## The claims -/

/-- C1 (as stated, refuted): for the holding AAPL, 10 shares, and the price
110.00, the row of AAPL (line 3 of the output) has the current-value field
110.00, which is not `numShares × price = 1100.00`. -/
theorem C1_counterexample :
    fieldAt (report exHoldings exPrices) 3 0 = some (.str "AAPL") ∧
    (exPrices.index exAAPL.Ticker).toRat = some 110 ∧
    fieldValue (fieldAt (report exHoldings exPrices) 3 3) = some 110 ∧
    fieldValue (fieldAt (report exHoldings exPrices) 3 3) ≠
      some ((exAAPL.NumShares : ℚ) * 110) := by
  have hfield : fieldAt (report exHoldings exPrices) 3 3 =
      some (.float (.finite false 14417920 (-17))) := by decide
  have hprice : exPrices.index exAAPL.Ticker = .finite false 14417920 (-17) := by decide
  rw [hfield, hprice]
  refine ⟨by decide, ?_, ?_, ?_⟩ <;> norm_num [fieldValue, float32.toRat, exAAPL]

/-- C1 (amended): for every holdings list and every price map, the row printed
for a holding `h` (the line `3 + 2 * i` for the holding at position `i`) carries
the ticker of `h`, and its `Current Value` field is the price of that ticker,
`currentValues[h.Ticker]`, not multiplied by the number of shares. -/
theorem C1_current_value_is_price (pre post : List holdingInfo) (h : holdingInfo)
    (cv : PriceMap) :
    fieldAt (report (pre ++ h :: post) cv) (3 + 2 * pre.length) 0 = some (.str h.Ticker) ∧
    fieldAt (report (pre ++ h :: post) cv) (3 + 2 * pre.length) 3 =
      some (.float (cv.index h.Ticker)) := by
  simp [fieldAt_holding, holdingRow]

/-- C1 (amended), at the example: the AAPL row shows 110.00 and the MSFT row
190.00. -/
theorem C1_current_value_is_price_witness :
    fieldAt (report exHoldings exPrices) 3 3 = some (.float (float32.ofInt 110)) ∧
    fieldAt (report exHoldings exPrices) 5 3 = some (.float (float32.ofInt 190)) := by
  have h1 := (C1_current_value_is_price [] [exMSFT] exAAPL exPrices).2
  have h2 := (C1_current_value_is_price [exAAPL] [] exMSFT exPrices).2
  exact ⟨h1, h2⟩

/-- C2 (as stated, refuted): for 16777217 shares of AAPL bought at 1.00 and the
price 2.00, the `Return` field of the row is 16777216.00, which is not
`numShares × (price − avgPricePerShare) = 16777217`: the conversion of the share
count to `float32` rounds. -/
theorem C2_counterexample :
    exOdd.AvgPricePerShare.toRat = some 1 ∧
    (exOddPrices.index exOdd.Ticker).toRat = some 2 ∧
    fieldValue (fieldAt (report [exOdd] exOddPrices) 3 4) = some 16777216 ∧
    fieldValue (fieldAt (report [exOdd] exOddPrices) 3 4) ≠
      some ((exOdd.NumShares : ℚ) * (2 - 1)) := by
  have hfield : fieldAt (report [exOdd] exOddPrices) 3 4 =
      some (.float (.finite false 8388608 1)) := by decide
  have havg : exOdd.AvgPricePerShare = .finite false 8388608 (-23) := by decide
  have hprice : exOddPrices.index exOdd.Ticker = .finite false 8388608 (-22) := by decide
  rw [hfield, havg, hprice]
  refine ⟨?_, ?_, ?_, ?_⟩ <;> norm_num [fieldValue, float32.toRat, exOdd]

/-- C2 (amended): for every holdings list and every price map, the row printed
for a holding `h` carries the ticker of `h`, and its `Return` field is
`float32(numShares(h)) * (price(h.Ticker) - avgPricePerShare(h))` in `float32`
arithmetic, each step rounded to the nearest `float32`; it is the exact number
`numShares(h) × (price(h.Ticker) − avgPricePerShare(h))` whenever no step
rounds (`rowExact`). -/
theorem C2_return_field (pre post : List holdingInfo) (h : holdingInfo) (cv : PriceMap) :
    fieldAt (report (pre ++ h :: post) cv) (3 + 2 * pre.length) 0 = some (.str h.Ticker) ∧
    fieldAt (report (pre ++ h :: post) cv) (3 + 2 * pre.length) 4 =
      some (.float (float32.mul (float32.ofInt h.NumShares)
        (float32.sub (cv.index h.Ticker) h.AvgPricePerShare))) ∧
    (rowExact cv h →
      fieldValue (fieldAt (report (pre ++ h :: post) cv) (3 + 2 * pre.length) 4) =
        some ((h.NumShares : ℚ) * ((cv.index h.Ticker).val - h.AvgPricePerShare.val))) := by
  refine ⟨by simp [fieldAt_holding, holdingRow], by simp [fieldAt_holding, holdingRow], ?_⟩
  intro hex
  rw [fieldAt_holding]
  simp only [holdingRow, List.getElem?_cons_succ, List.getElem?_cons_zero, fieldValue]
  exact row_return_exact cv h hex

/-- C2 (amended), at the example: the AAPL row returns 100.00 and the MSFT row
−50.00. -/
theorem C2_return_field_witness :
    rowExact exPrices exAAPL ∧ rowExact exPrices exMSFT ∧
    fieldValue (fieldAt (report exHoldings exPrices) 3 4) = some 100 ∧
    fieldValue (fieldAt (report exHoldings exPrices) 5 4) = some (-50) := by
  have h1 := (C2_return_field [] [exMSFT] exAAPL exPrices).2.2 rowExact_exAAPL
  have h2 := (C2_return_field [exAAPL] [] exMSFT exPrices).2.2 rowExact_exMSFT
  rw [← exactReturn, exactReturn_exAAPL] at h1
  rw [← exactReturn, exactReturn_exMSFT] at h2
  exact ⟨rowExact_exAAPL, rowExact_exMSFT, h1, h2⟩

/-- C3 (as stated, refuted): for two holdings of `2^63 − 1` shares and of 1
share, the shares field of the TOTALS row (line 7) is `−2^63`, which is not the
sum `2^63` of the share counts; and for 16777217 shares bought at 1.00 the cost
field of the TOTALS row (line 5) is 16777216.00, which is not
`numShares × avgPricePerShare = 16777217`. -/
theorem C3_counterexample :
    fieldAt (report exLarge exPrices) 7 0 = some (.int (-9223372036854775808)) ∧
    fieldAt (report exLarge exPrices) 7 0 ≠
      some (.int ((exLarge.map (fun h => h.NumShares)).sum)) ∧
    exOdd.AvgPricePerShare.toRat = some 1 ∧
    fieldValue (fieldAt (report [exOdd] exOddPrices) 5 1) = some 16777216 ∧
    fieldValue (fieldAt (report [exOdd] exOddPrices) 5 1) ≠
      some (([exOdd].map (fun h => (h.NumShares : ℚ) * 1)).sum) := by
  have hshares : fieldAt (report exLarge exPrices) 7 0 =
      some (.int (-9223372036854775808)) := by
    simp [fieldAt, report, exLarge, totals, addHolding, totalsRow, wrapInt]
  have hcost := exOdd_cost_field
  have havg : exOdd.AvgPricePerShare = .finite false 8388608 (-23) := by decide
  rw [hshares, hcost, havg]
  refine ⟨rfl, by decide, ?_, ?_, ?_⟩ <;> norm_num [fieldValue, float32.toRat, exOdd]

/-- C3 (amended): the TOTALS row, printed after the header block and the rows of
the holdings, has: shares = the sum of `numShares` wrapped into the 64-bit range
of Go's `int` (the sum itself whenever it lies in `[−2^63, 2^63)`); cost and
value = the `float32` running sums, in input order from `+0`, of
`float32(numShares) * avgPricePerShare` and of `float32(numShares) *
price(Ticker)`; return = the `float32` difference value − cost. Whenever no
step of these sums rounds (`totalsExact`), cost, value and return are the exact
numbers: the sum of `numShares × avgPricePerShare`, the sum of
`numShares × price(Ticker)`, and value − cost. -/
theorem C3_totals_row (hs : List holdingInfo) (cv : PriceMap) :
    (report hs cv)[3 + 2 * hs.length]? =
      some (totalsRow
        (wrapInt ((hs.map (fun h => h.NumShares)).sum))
        (hs.foldl (fun c h =>
          float32.add c (float32.mul (float32.ofInt h.NumShares) h.AvgPricePerShare))
          float32.zero)
        (hs.foldl (fun v h =>
          float32.add v (float32.mul (float32.ofInt h.NumShares) (cv.index h.Ticker)))
          float32.zero)
        (float32.sub
          (hs.foldl (fun v h =>
            float32.add v (float32.mul (float32.ofInt h.NumShares) (cv.index h.Ticker)))
            float32.zero)
          (hs.foldl (fun c h =>
            float32.add c (float32.mul (float32.ofInt h.NumShares) h.AvgPricePerShare))
            float32.zero))) ∧
    (-9223372036854775808 ≤ (hs.map (fun h => h.NumShares)).sum →
      (hs.map (fun h => h.NumShares)).sum < 9223372036854775808 →
      wrapInt ((hs.map (fun h => h.NumShares)).sum) = (hs.map (fun h => h.NumShares)).sum) ∧
    (totalsExact hs cv →
      fieldValue (fieldAt (report hs cv) (3 + 2 * hs.length) 1) =
        some ((hs.map (fun h => (h.NumShares : ℚ) * h.AvgPricePerShare.val)).sum) ∧
      fieldValue (fieldAt (report hs cv) (3 + 2 * hs.length) 2) =
        some ((hs.map (fun h => (h.NumShares : ℚ) * (cv.index h.Ticker).val)).sum) ∧
      fieldValue (fieldAt (report hs cv) (3 + 2 * hs.length) 3) =
        some ((hs.map (fun h => (h.NumShares : ℚ) * (cv.index h.Ticker).val)).sum -
          (hs.map (fun h => (h.NumShares : ℚ) * h.AvgPricePerShare.val)).sum)) := by
  refine ⟨?_, wrapInt_of_inRange _, ?_⟩
  · rw [report_line_totals, totals_totalShares, totals_totalCost, totals_totalValue]
  · intro hex
    obtain ⟨hc, hv, hr⟩ := totals_exact hs cv hex
    rw [fieldAt_totals, fieldAt_totals, fieldAt_totals]
    simp only [totalsRow, List.getElem?_cons_succ, List.getElem?_cons_zero, fieldValue]
    exact ⟨hc, hv, hr⟩

/-- C3 (amended), at the example: shares 15, cost 2000.00, value 2050.00,
return 50.00. -/
theorem C3_totals_row_witness :
    totalsExact exHoldings exPrices ∧
    fieldAt (report exHoldings exPrices) 7 0 = some (.int 15) ∧
    fieldValue (fieldAt (report exHoldings exPrices) 7 1) = some 2000 ∧
    fieldValue (fieldAt (report exHoldings exPrices) 7 2) = some 2050 ∧
    fieldValue (fieldAt (report exHoldings exPrices) 7 3) = some 50 := by
  have h := (C3_totals_row exHoldings exPrices).2.2 totalsExact_exHoldings
  have hc : (exHoldings.map (fun h => (h.NumShares : ℚ) * h.AvgPricePerShare.val)).sum
      = 2000 := by
    have h1 := exactCost_exAAPL
    have h2 := exactCost_exMSFT
    simp only [exactCost] at h1 h2
    simp only [exHoldings, List.map_cons, List.map_nil, List.sum_cons, List.sum_nil, h1, h2]
    norm_num
  have hv : (exHoldings.map (fun h => (h.NumShares : ℚ) * (exPrices.index h.Ticker).val)).sum
      = 2050 := by
    have h1 := exactValue_exAAPL
    have h2 := exactValue_exMSFT
    simp only [exactValue] at h1 h2
    simp only [exHoldings, List.map_cons, List.map_nil, List.sum_cons, List.sum_nil, h1, h2]
    norm_num
  rw [hc, hv] at h
  refine ⟨totalsExact_exHoldings, by decide, h.1, h.2.1, ?_⟩
  have h3 : fieldValue (fieldAt (report exHoldings exPrices) 7 3) = some (2050 - 2000) := h.2.2
  rw [h3]
  norm_num

/-- C4: for every holdings list of length `n`, the report is the header block
(separator, header row, separator), then for each holding in input order its
row followed by a separator, then the TOTALS row and a separator: `2 * n + 5`
lines in all. The holding at position `i` has its row at line `3 + 2 * i` and
a separator at the next line; each row carries the ticker, share count and
average cost of its holding; there are exactly `n` per-holding rows and
exactly one TOTALS row, at line `3 + 2 * n`. -/
theorem C4_report_layout (hs : List holdingInfo) (cv : PriceMap) :
    report hs cv =
      [separator, headerRow, separator] ++
        hs.flatMap (fun h => [holdingRow h cv, separator]) ++
        [totalsRow (totals hs cv).totalShares (totals hs cv).totalCost (totals hs cv).totalValue
            (float32.sub (totals hs cv).totalValue (totals hs cv).totalCost), separator] ∧
    (report hs cv).length = 2 * hs.length + 5 ∧
    (∀ (pre post : List holdingInfo) (h : holdingInfo), hs = pre ++ h :: post →
      (report hs cv)[3 + 2 * pre.length]? = some (holdingRow h cv) ∧
      (report hs cv)[3 + 2 * pre.length + 1]? = some separator) ∧
    (∀ h : holdingInfo, (holdingRow h cv).format = rowFormat ∧
      (holdingRow h cv).args.take 3 =
        [.str h.Ticker, .int h.NumShares, .float h.AvgPricePerShare]) ∧
    ((report hs cv).filter (fun p => p.format = rowFormat)).length = hs.length ∧
    ((report hs cv).filter (fun p => p.format = totalsFormat)).length = 1 ∧
    ((report hs cv)[3 + 2 * hs.length]?).map (fun p => p.format) = some totalsFormat := by
  refine ⟨report_eq hs cv, ?_, ?_, fun h => ⟨rfl, rfl⟩, ?_, ?_, ?_⟩
  · rw [report_eq, List.length_append, List.length_append, rows_length]
    simp
    omega
  · intro pre post h hsplit
    subst hsplit
    exact ⟨report_line_holding pre post h cv, report_line_separator pre post h cv⟩
  · have h1 : separator.format ≠ rowFormat := by decide
    have h2 : headerRow.format ≠ rowFormat := by decide
    have h3 : totalsFormat ≠ rowFormat := by decide
    rw [report_eq, List.filter_append, List.filter_append, List.length_append,
      List.length_append, rows_filter_rowFormat]
    simp [List.filter_cons, h1, h2, h3, totalsRow]
  · have h1 : separator.format ≠ totalsFormat := by decide
    have h2 : headerRow.format ≠ totalsFormat := by decide
    rw [report_eq, List.filter_append, List.filter_append, rows_filter_totalsFormat]
    simp [List.filter_cons, h1, h2, totalsRow]
  · rw [report_line_totals]
    rfl

/-- C4, at the example: nine lines, the rows of AAPL and MSFT in input order. -/
theorem C4_report_layout_witness :
    report exHoldings exPrices =
      [separator, headerRow, separator,
       holdingRow exAAPL exPrices, separator,
       holdingRow exMSFT exPrices, separator,
       totalsRow (totals exHoldings exPrices).totalShares (totals exHoldings exPrices).totalCost
         (totals exHoldings exPrices).totalValue
         (float32.sub (totals exHoldings exPrices).totalValue
           (totals exHoldings exPrices).totalCost),
       separator] := by
  have h := (C4_report_layout exHoldings exPrices).1
  simpa [exHoldings] using h

/-- C5 (as stated, refuted): for 2 shares bought at `2^127` and the price
`2^127`, equal to the average cost, total cost and total value overflow to
`+Inf` and the return field of the TOTALS row is NaN, not 0. -/
theorem C5_counterexample :
    (∀ h ∈ [exHuge], exHugePrices h.Ticker = some h.AvgPricePerShare) ∧
    fieldAt (report [exHuge] exHugePrices) 5 1 = some (.float (.inf false)) ∧
    fieldAt (report [exHuge] exHugePrices) 5 2 = some (.float (.inf false)) ∧
    fieldAt (report [exHuge] exHugePrices) 5 3 = some (.float .nan) ∧
    fieldValue (fieldAt (report [exHuge] exHugePrices) 5 3) ≠ some 0 := by
  have hret : fieldAt (report [exHuge] exHugePrices) 5 3 = some (.float .nan) := by decide
  rw [hret]
  refine ⟨by decide, by decide, by decide, rfl, ?_⟩
  simp [fieldValue, float32.toRat]

/-- C5 (amended): for every holdings list and every price map that holds, for
every holding, a price equal to the holding's average price per share, total
value and total cost are the same `float32`, and the return field of the TOTALS
row is exactly `+0` whenever that total is a number (the running sums did not
overflow); when it is an infinity or a NaN the return field is NaN. -/
theorem C5_total_return_zero (hs : List holdingInfo) (cv : PriceMap)
    (hprice : ∀ h ∈ hs, cv h.Ticker = some h.AvgPricePerShare) :
    (totals hs cv).totalValue = (totals hs cv).totalCost ∧
    ((totals hs cv).totalCost.isFinite = true →
      fieldAt (report hs cv) (3 + 2 * hs.length) 3 = some (.float float32.zero)) ∧
    ((totals hs cv).totalCost.isFinite = false →
      fieldAt (report hs cv) (3 + 2 * hs.length) 3 = some (.float .nan)) := by
  have heq : (totals hs cv).totalValue = (totals hs cv).totalCost :=
    foldl_value_eq_cost cv hs _ (fun h hh => by simp [PriceMap.index, hprice h hh]) rfl
  refine ⟨heq, ?_, ?_⟩
  · intro hfin
    rw [fieldAt_totals, heq]
    cases hc : (totals hs cv).totalCost with
    | finite s m e => simp [totalsRow, float32.sub_self_finite]
    | inf s => rw [hc] at hfin; simp [float32.isFinite] at hfin
    | nan => rw [hc] at hfin; simp [float32.isFinite] at hfin
  · intro hfin
    rw [fieldAt_totals, heq]
    simp [totalsRow, float32.sub_self_of_not_finite _ hfin]

/-- C5 (amended), at the example holdings with prices 100.00 and 200.00. -/
theorem C5_total_return_zero_witness :
    (∀ h ∈ exHoldings, exAtCost h.Ticker = some h.AvgPricePerShare) ∧
    (totals exHoldings exAtCost).totalCost.isFinite = true ∧
    fieldAt (report exHoldings exAtCost) 7 3 = some (.float float32.zero) := by
  have hp : ∀ h ∈ exHoldings, exAtCost h.Ticker = some h.AvgPricePerShare := by decide
  have hfin := exAtCost_totalCost_isFinite
  exact ⟨hp, hfin, (C5_total_return_zero exHoldings exAtCost hp).2.1 hfin⟩

/-- C6 (as stated, refuted): for a holding of AAPL with 0 shares and the price
110.00, the `Current Value` field of its row is 110.00, not 0.00. -/
theorem C6_counterexample :
    exNoShares.NumShares = 0 ∧
    fieldValue (fieldAt (report [exNoShares] exPrices) 3 3) = some 110 ∧
    fieldValue (fieldAt (report [exNoShares] exPrices) 3 3) ≠ some 0 := by
  have hfield : fieldAt (report [exNoShares] exPrices) 3 3 =
      some (.float (.finite false 14417920 (-17))) := by decide
  rw [hfield]
  refine ⟨rfl, ?_, ?_⟩ <;> norm_num [fieldValue, float32.toRat]

/-- C6 (amended): for every holding with `numShares = 0` and every price map,
the `Current Value` field of its row is the price of its ticker, and the
`Return` field is `float32(0) * (price − avgPricePerShare)`: when the `float32`
difference price − avgPricePerShare is a number, a zero with the sign of that
difference (so the exact number 0, `+0` or `−0`); when the difference is an
infinity or a NaN, NaN. -/
theorem C6_zero_shares_row (pre post : List holdingInfo) (h : holdingInfo) (cv : PriceMap)
    (hzero : h.NumShares = 0) :
    fieldAt (report (pre ++ h :: post) cv) (3 + 2 * pre.length) 3 =
      some (.float (cv.index h.Ticker)) ∧
    (∀ (s : Bool) (m : Nat) (e : Int),
      float32.sub (cv.index h.Ticker) h.AvgPricePerShare = .finite s m e →
      fieldAt (report (pre ++ h :: post) cv) (3 + 2 * pre.length) 4 =
        some (.float (.finite s 0 (-149))) ∧
      fieldValue (fieldAt (report (pre ++ h :: post) cv) (3 + 2 * pre.length) 4) = some 0) ∧
    ((float32.sub (cv.index h.Ticker) h.AvgPricePerShare).isFinite = false →
      fieldAt (report (pre ++ h :: post) cv) (3 + 2 * pre.length) 4 = some (.float .nan)) := by
  refine ⟨by simp [fieldAt_holding, holdingRow], ?_, ?_⟩
  · intro s m e hd
    have hfield : fieldAt (report (pre ++ h :: post) cv) (3 + 2 * pre.length) 4 =
        some (.float (.finite s 0 (-149))) := by
      rw [fieldAt_holding]
      simp [holdingRow, hzero, float32.ofInt_zero, hd, float32.zero_mul_finite]
    rw [hfield]
    exact ⟨rfl, by simp [fieldValue, float32.toRat]⟩
  · intro hd
    rw [fieldAt_holding]
    simp [holdingRow, hzero, float32.ofInt_zero, float32.zero_mul_of_not_finite _ hd]

/-- C6 (amended), at the holding of AAPL with 0 shares bought at 100.00: with
the price 110.00 the return is `+0`, and with no price in the map (read as
`+0`, below the average cost) it is `−0`. -/
theorem C6_zero_shares_row_witness :
    exNoShares.NumShares = 0 ∧
    fieldAt (report [exNoShares] exPrices) 3 3 = some (.float (float32.ofInt 110)) ∧
    fieldAt (report [exNoShares] exPrices) 3 4 = some (.float (.finite false 0 (-149))) ∧
    fieldAt (report [exNoShares] PriceMap.make) 3 4 = some (.float (.finite true 0 (-149))) := by
  have h1 := C6_zero_shares_row [] [] exNoShares exPrices rfl
  have h2 := C6_zero_shares_row [] [] exNoShares PriceMap.make rfl
  exact ⟨rfl, h1.1, (h1.2.1 false 10485760 (-20) exNoShares_difference).1,
    (h2.2.1 true 13107200 (-17) exNoShares_difference_unpriced).1⟩

/-- C8 (as stated, refuted): for two holdings of AAPL, with a readable key file
and an endpoint that answers every request, `printTotalReturn` returns normally
and has started two fetches of AAPL, not at most one. -/
theorem C8_counterexample :
    (printTotalReturn exTwice exSchedule (some "key") (fun _ => exHttp)).exit = none ∧
    (printTotalReturn exTwice exSchedule (some "key") (fun _ => exHttp)).started =
      ["AAPL", "AAPL"] ∧
    ¬ ((printTotalReturn exTwice exSchedule (some "key") (fun _ => exHttp)).started.count
        "AAPL" ≤ 1) := by
  decide

/-- C8 (amended): for every holdings list, the fan-out starts one fetch per
holding, in input order, so a ticker is fetched as many times as there are
holdings of it; and two rows of holdings that share a ticker both show, as
`Current Value`, the one price the map holds for that ticker. -/
theorem C8_one_fetch_per_holding (hs : List holdingInfo) (sched : Schedule)
    (keyFile : Option String) (httpGet : Nat → String → ApiOutcome) :
    (printTotalReturn hs sched keyFile httpGet).started = hs.map (fun h => h.Ticker) ∧
    (∀ t : String, (printTotalReturn hs sched keyFile httpGet).started.count t =
      (hs.filter (fun h => h.Ticker = t)).length) ∧
    (∀ (a b c : List holdingInfo) (h1 h2 : holdingInfo) (cv : PriceMap),
      h1.Ticker = h2.Ticker →
      fieldAt (report (a ++ h1 :: (b ++ h2 :: c)) cv) (3 + 2 * a.length) 3 =
        some (.float (cv.index h1.Ticker)) ∧
      fieldAt (report (a ++ h1 :: (b ++ h2 :: c)) cv) (3 + 2 * (a.length + 1 + b.length)) 3 =
        some (.float (cv.index h1.Ticker))) := by
  refine ⟨?_, ?_, ?_⟩
  · rw [printTotalReturn_started, fanOut_eq]
  · intro t
    rw [printTotalReturn_started, fanOut_eq, count_map_ticker]
  · intro a b c h1 h2 cv hticker
    refine ⟨by simp [fieldAt_holding, holdingRow], ?_⟩
    have hlist : a ++ h1 :: (b ++ h2 :: c) = (a ++ h1 :: b) ++ h2 :: c := by simp
    have hlen : a.length + 1 + b.length = (a ++ h1 :: b).length := by simp; omega
    rw [hlist, hlen, fieldAt_holding]
    simp [holdingRow, hticker]

/-- C8 (amended), at the two holdings of AAPL: two fetches of AAPL are started,
and both rows show the price 110.00 of the map. -/
theorem C8_one_fetch_per_holding_witness :
    (printTotalReturn exTwice exSchedule (some "key") (fun _ => exHttp)).started.count
      "AAPL" = 2 ∧
    fieldAt (report exTwice exPrices) 3 3 = some (.float (float32.ofInt 110)) ∧
    fieldAt (report exTwice exPrices) 5 3 = some (.float (float32.ofInt 110)) := by
  have h := C8_one_fetch_per_holding exTwice exSchedule (some "key") (fun _ => exHttp)
  have hrows := h.2.2 [] [] [] ⟨"AAPL", 10, float32.ofInt 100⟩ ⟨"AAPL", 5, float32.ofInt 120⟩
    exPrices rfl
  refine ⟨?_, hrows.1, hrows.2⟩
  rw [h.2.1]
  decide

/-- C9 (as stated, refuted): with a key file that cannot be opened,
`getStockPrice` ends the process and sets no price for the ticker, although the
endpoint would answer with a non-empty array of daily records, which is none of
the three failures the claim lists. -/
theorem C9_counterexample :
    exHttp (apiURL "AAPL" "key") = .parsed [exDaily (float32.ofInt 110)] ∧
    (getStockPrice "AAPL" PriceMap.make none exHttp).2 =
      some (.fatal "There was an error opening '%s': %s") ∧
    (getStockPrice "AAPL" PriceMap.make none exHttp).1 "AAPL" ≠
      some (exDaily (float32.ofInt 110)).Close := by
  simp [getStockPrice, getAPIKey, exHttp, PriceMap.make]

/-- C9 (amended): for every ticker, price map, key file and endpoint,
`getStockPrice` ends the process and writes nothing to the price map if the key
file cannot be opened, the network call errors, the response body does not
parse, or the parsed array is empty; in every other case it returns normally,
having set `prices[ticker]` to the close of the first array element and left
every other key unchanged. -/
theorem C9_getStockPrice_outcomes (ticker : String) (prices : PriceMap)
    (httpGet : String → ApiOutcome) :
    ((getStockPrice ticker prices none httpGet).2 ≠ none ∧
      (getStockPrice ticker prices none httpGet).1 = prices) ∧
    (∀ line : String,
      ((httpGet (apiURL ticker (TrimSpace line)) = .networkError ∨
        httpGet (apiURL ticker (TrimSpace line)) = .unmarshalError ∨
        httpGet (apiURL ticker (TrimSpace line)) = .parsed []) →
        (getStockPrice ticker prices (some line) httpGet).2 ≠ none ∧
        (getStockPrice ticker prices (some line) httpGet).1 = prices) ∧
      (∀ (d : dailyInfo) (rest : List dailyInfo),
        httpGet (apiURL ticker (TrimSpace line)) = .parsed (d :: rest) →
        (getStockPrice ticker prices (some line) httpGet).2 = none ∧
        (getStockPrice ticker prices (some line) httpGet).1 ticker = some d.Close ∧
        ∀ key : String, key ≠ ticker →
          (getStockPrice ticker prices (some line) httpGet).1 key = prices key)) := by
  refine ⟨by simp [getStockPrice, getAPIKey], fun line => ⟨?_, ?_⟩⟩
  · rintro (h | h | h) <;> simp [getStockPrice, getAPIKey, h]
  · intro d rest h
    refine ⟨by simp [getStockPrice, getAPIKey, h], by simp [getStockPrice, getAPIKey, h,
      PriceMap.assign], ?_⟩
    intro key hkey
    simp [getStockPrice, getAPIKey, h, PriceMap.assign, hkey]

/-- C9 (amended), at concrete inputs: a readable key file and an answer closing
at 110.00 set the price of AAPL to 110.00 and keep the price of MSFT; an empty
array ends the process and leaves the map as it was. -/
theorem C9_getStockPrice_outcomes_witness :
    (getStockPrice "AAPL" exPrices (some " key ") exHttp).2 = none ∧
    (getStockPrice "AAPL" exPrices (some " key ") exHttp).1 "AAPL" =
      some (float32.ofInt 110) ∧
    (getStockPrice "AAPL" exPrices (some " key ") exHttp).1 "MSFT" = exPrices "MSFT" ∧
    (getStockPrice "AAPL" exPrices (some " key ") (fun _ => .parsed [])).2 ≠ none ∧
    (getStockPrice "AAPL" exPrices (some " key ") (fun _ => .parsed [])).1 = exPrices := by
  have hok := ((C9_getStockPrice_outcomes "AAPL" exPrices exHttp).2 " key ").2
    (exDaily (float32.ofInt 110)) [] rfl
  have hempty := ((C9_getStockPrice_outcomes "AAPL" exPrices (fun _ => .parsed [])).2 " key ").1
    (Or.inr (Or.inr rfl))
  exact ⟨hok.1, hok.2.1, hok.2.2 "MSFT" (by decide), hempty.1, hempty.2⟩

/-- C10 (as stated, refuted): for one share of AAPL at the price 16777216.00 and
one share of MSFT at the price 1.00, both bought at 0.00, the `Return` column
holds 16777216.00 and 1.00, whose sum is 16777217, but the return field of the
TOTALS row is 16777216.00: the running sum of the values rounds. -/
theorem C10_counterexample :
    fieldValue (fieldAt (report exPair exPairPrices) 3 4) = some 16777216 ∧
    fieldValue (fieldAt (report exPair exPairPrices) 5 4) = some 1 ∧
    columnSum (returnColumn (report exPair exPairPrices) 2) = 16777217 ∧
    fieldValue (fieldAt (report exPair exPairPrices) 7 3) = some 16777216 ∧
    fieldValue (fieldAt (report exPair exPairPrices) 7 3) ≠
      some (columnSum (returnColumn (report exPair exPairPrices) 2)) := by
  have h1 := exPair_return_AAPL
  have h2 := exPair_return_MSFT
  have h3 := exPair_return_total
  have hsum : columnSum (returnColumn (report exPair exPairPrices) 2) = 16777217 := by
    simp only [columnSum, returnColumn, List.range_succ, List.range_zero, List.nil_append,
      List.cons_append, List.map_cons, List.map_nil, List.sum_cons, List.sum_nil,
      Nat.mul_zero, Nat.mul_one, Nat.add_zero, h1, h2]
    norm_num [fieldValue, float32.toRat]
  rw [hsum, h1, h2, h3]
  refine ⟨?_, ?_, rfl, ?_, ?_⟩ <;> norm_num [fieldValue, float32.toRat]

/-- C10 (amended): for every holdings list and every price map, the `Return`
column of the rows holds `float32(numShares) * (price(Ticker) −
avgPricePerShare)` for each holding, in order, and the return field of the
TOTALS row is the `float32` difference of the running sums totalValue and
totalCost; it is the sum of the `Return` column whenever no `float32` step of
the rows and of the totals rounds (`rowExact`, `totalsExact`). -/
theorem C10_total_return_is_sum_of_returns (hs : List holdingInfo) (cv : PriceMap) :
    returnColumn (report hs cv) hs.length =
      hs.map (fun h =>
        some (Arg.float (float32.mul (float32.ofInt h.NumShares)
          (float32.sub (cv.index h.Ticker) h.AvgPricePerShare)))) ∧
    fieldAt (report hs cv) (3 + 2 * hs.length) 3 =
      some (.float (float32.sub (totals hs cv).totalValue (totals hs cv).totalCost)) ∧
    (totalsExact hs cv → (∀ h ∈ hs, rowExact cv h) →
      fieldValue (fieldAt (report hs cv) (3 + 2 * hs.length) 3) =
        some (columnSum (returnColumn (report hs cv) hs.length))) := by
  refine ⟨returnColumn_report hs cv, by simp [fieldAt_totals, totalsRow], ?_⟩
  intro htot hrows
  have hcol : columnSum (returnColumn (report hs cv) hs.length) =
      (hs.map (exactReturn cv)).sum := by
    rw [returnColumn_report, columnSum, List.map_map]
    congr 1
    apply List.map_congr_left
    intro h hh
    simp [fieldValue, row_return_exact cv h (hrows h hh)]
  rw [hcol, ← sum_value_sub_sum_cost, fieldAt_totals]
  simp only [totalsRow, List.getElem?_cons_succ, List.getElem?_cons_zero, fieldValue]
  exact (totals_exact hs cv htot).2.2

/-- C10 (amended), at the example: the column holds 100.00 and −50.00, the
TOTALS row 50.00. -/
theorem C10_total_return_is_sum_of_returns_witness :
    totalsExact exHoldings exPrices ∧ (∀ h ∈ exHoldings, rowExact exPrices h) ∧
    columnSum (returnColumn (report exHoldings exPrices) 2) = 50 ∧
    fieldValue (fieldAt (report exHoldings exPrices) 7 3) = some 50 := by
  have hrows : ∀ h ∈ exHoldings, rowExact exPrices h := by
    intro h hh
    simp only [exHoldings, List.mem_cons, List.mem_singleton, List.not_mem_nil, or_false] at hh
    rcases hh with rfl | rfl
    · exact rowExact_exAAPL
    · exact rowExact_exMSFT
  have h := C10_total_return_is_sum_of_returns exHoldings exPrices
  have htotal : fieldValue (fieldAt (report exHoldings exPrices) 7 3) =
      some (columnSum (returnColumn (report exHoldings exPrices) 2)) :=
    h.2.2 totalsExact_exHoldings hrows
  have hcol : columnSum (returnColumn (report exHoldings exPrices) 2) = 50 := by
    have hc : returnColumn (report exHoldings exPrices) 2 = _ := h.1
    rw [hc, columnSum]
    simp only [exHoldings, List.map_cons, List.map_nil, List.sum_cons, List.sum_nil, fieldValue,
      row_return_exact _ _ rowExact_exAAPL, row_return_exact _ _ rowExact_exMSFT,
      exactReturn_exAAPL, exactReturn_exMSFT, Option.getD_some]
    norm_num
  rw [hcol] at htotal
  exact ⟨totalsExact_exHoldings, hrows, hcol, htotal⟩

end StockMarketReturnCalculator
